import Mathlib

/-!
Verification of the temporal core of the jackal calendar engine: time
spans and their day-granular decomposition (src/provider/datetime.rs,
src/provider/mod.rs), the hand-written ical duration grammar and the
datetime property parser (src/provider/ical/calendar.rs), the windowed
per-calendar occurrence index and its reconciliation, and the agenda's
date-keyed occurrence cache (src/agenda.rs).

Time model: the engine's calendar arithmetic is embedded over integer
time. A local datetime (`chrono::NaiveDateTime`, `DateTime<Tz>`) is an
integer count of seconds; a date (`chrono::NaiveDate`, `Date<Tz>`) is an
integer count of days. The timezone attached to a span is modelled as a
fixed offset, under which local datetimes and instants are in
order-preserving bijection and `from_local_datetime` is single-valued
(`earliest() = latest()`); spans are therefore represented directly by
their local second counts, and local midnight of day `d` is second
`86400 * d`. The timezone payload that the newer source threads through
`TimeSpan::Allday` carries no information in this model and is dropped.
DST folds are modelled separately where a claim depends on them (the
`TzId` candidate-list model used by the datetime property parser).
-/

def secPerDay : Int := 86400

/-- `NaiveDateTime::date` / `DateTime::date_naive`: the calendar date
(day count) containing a given local second count. Lean's `Int`
division is Euclidean, which coincides with floor division for the
positive divisor `secPerDay`, matching chrono. -/
def dateOf (t : Int) : Int := t / secPerDay

/-- `n` consecutive dates starting at `a`. -/
def dateRangeAux (a : Int) : Nat → List Int
  | 0 => []
  | n + 1 => a :: dateRangeAux (a + 1) n

/-- The list of dates `a, a+1, ..., b` (empty when `b < a`); the shape
produced by chrono's `iter_days().take_while(|d| d <= b)`. -/
def dateRange (a b : Int) : List Int := dateRangeAux a (b - a + 1).toNat

/-- `TimeSpan` (src/provider/datetime.rs:24-30): `Allday` is an
inclusive whole-day range, `TimePoints` a pair of instants, `Duration` a
start plus a length in seconds, `Instant` a zero-length marker. -/
inductive TimeSpan where
  | allday (d : Int) (e : Option Int)
  | timePoints (a b : Int)
  | duration (a : Int) (dur : Int)
  | instant (a : Int)
deriving Repr, DecidableEq

/-- `TimeSpan::begin` (src/provider/datetime.rs:61-68): allday spans
begin at 00:00:00 of their start date. -/
def tsBegin : TimeSpan → Int
  | .allday d _ => d * secPerDay
  | .timePoints a _ => a
  | .duration a _ => a
  | .instant a => a

/-- `TimeSpan::end` (src/provider/datetime.rs:70-77): allday spans end
at 23:59:59 of their end date (falling back to the start date). -/
def tsEnd : TimeSpan → Int
  | .allday d e => (e.getD d) * secPerDay + 86399
  | .timePoints _ b => b
  | .duration a dur => a + dur
  | .instant a => a

/-- `TimeSpan::from_start_and_end` (src/provider/datetime.rs:33). -/
def fromStartAndEnd (a b : Int) : TimeSpan := .timePoints a b

/-- `TimeSpan::from_start_and_duration` (src/provider/datetime.rs:37). -/
def fromStartAndDuration (a dur : Int) : TimeSpan := .duration a dur

/-- `TimeSpan::from_start` (src/provider/datetime.rs:41). -/
def fromStart (a : Int) : TimeSpan := .instant a

/-- `TimeSpan::allday` (src/provider/datetime.rs:45). -/
def alldayOf (d : Int) : TimeSpan := .allday d none

/-- `TimeSpan::allday_until` (src/provider/datetime.rs:49). -/
def alldayUntil (a b : Int) : TimeSpan := .allday a (some b)

/-- Modelled from the spec: `TimeSpan::num_days` is called by
`Occurrence::days` (src/provider/mod.rs:156) but its definition is not
among the provided source files. Per the spec, a span touches the
calendar days from its begin date to its end date and `days()` leaves a
span unchanged exactly when `end.date == begin.date`, so the number of
touched days is `end.date - begin.date + 1`. -/
def numDays (s : TimeSpan) : Int := dateOf (tsEnd s) - dateOf (tsBegin s) + 1

/-- The inner `unroll` closure of `Occurrence::days`
(src/provider/mod.rs:119-154): one slice per date from the begin date to
the end date; the begin date keeps the original start and runs to the
next midnight, the end date starts at its own midnight and runs to the
original end, and every day strictly between becomes an allday slice.
(With the fixed-offset timezone model, `from_local_datetime(..).latest()`
and `.earliest()` both denote the unique instant of the local midnight.) -/
def unroll (f t : Int) : List TimeSpan :=
  (dateRange (dateOf f) (dateOf t)).map (fun d =>
    if d = dateOf f then .timePoints f ((dateOf f + 1) * secPerDay)
    else if d = dateOf t then .timePoints (dateOf t * secPerDay) t
    else .allday d none)

/-- `Occurrence::days` (src/provider/mod.rs:118-178): spans covering a
single calendar day are returned unchanged; a multi-day allday span with
an explicit end yields one allday slice per date strictly before the end
date; multi-day `TimePoints` and `Duration` spans are unrolled. -/
def occDays (s : TimeSpan) : List TimeSpan :=
  if 1 < numDays s then
    match s with
    | .allday b e =>
      match e with
      | some ee => (dateRange b (ee - 1)).map (fun d => .allday d none)
      | none => [.allday b none]
    | .timePoints a b => unroll a b
    | .duration a dur => unroll a (a + dur)
    | .instant _ => [s]
  else [s]

/-- The instant at which a day-slice's time coverage starts: a
`TimePoints` slice covers `[a, b)`, an allday slice covers its whole
day. Used to state the no-gap/no-overlap part of the decomposition
claim. -/
def coverBegin : TimeSpan → Int
  | .allday d _ => d * secPerDay
  | .timePoints a _ => a
  | .duration a _ => a
  | .instant a => a

/-- The instant at which a day-slice's time coverage stops (an allday
slice covers up to the following midnight). -/
def coverEnd : TimeSpan → Int
  | .allday d e => ((e.getD d) + 1) * secPerDay
  | .timePoints _ b => b
  | .duration a dur => a + dur
  | .instant a => a

/-- The error taxonomy of the provider layer (src/provider/error.rs is
not among the provided sources; the kinds are those the parser
constructs). Error messages are elided: no claim depends on them. -/
inductive ErrorKind where
  | durationParse
  | dateParse
  | timeParse
  | eventParse
  | eventMissingKey
  | calendarParse
deriving Repr, DecidableEq

/-- `IcalDuration` (src/provider/ical/calendar.rs:36-46). -/
structure IcalDuration where
  sign : Int
  years : Int
  months : Int
  weeks : Int
  days : Int
  hours : Int
  minutes : Int
  seconds : Int
deriving Repr, DecidableEq

/-- `IcalDuration::parse_sign` (src/provider/ical/calendar.rs:49-51):
`opt(one_of("+-"))`. -/
def parseSign : List Char → Option Char × List Char
  | [] => (none, [])
  | c :: rest => if c = '+' ∨ c = '-' then (some c, rest) else (none, c :: rest)

/-- The numeric value of a digit string (most significant first). -/
def digitsToNat (ds : List Char) : Nat :=
  ds.foldl (fun acc c => acc * 10 + (c.toNat - 48)) 0

/-- `IcalDuration::parse_integer_value`
(src/provider/ical/calendar.rs:53-55): `i64::from_str_radix`, which
fails when the value exceeds the i64 range. -/
def parseIntegerValue (ds : List Char) : Option Int :=
  let n := digitsToNat ds
  if n < 2 ^ 63 then some (n : Int) else none

/-- `IcalDuration::value_with_designator`
(src/provider/ical/calendar.rs:57-64): `digit1` (one or more digits)
parsed as an integer, terminated by the designator character. -/
def valueWithDesignator (desig : Char) (s : List Char) : Option (Int × List Char) :=
  match s.takeWhile Char.isDigit, s.dropWhile Char.isDigit with
  | [], _ => none
  | ds, rest =>
    match parseIntegerValue ds with
    | none => none
    | some n =>
      match rest with
      | c :: rest2 => if c = desig then some (n, rest2) else none
      | [] => none

/-- nom's `opt` around `value_with_designator`: on failure the input is
left untouched. -/
def optVal (desig : Char) (s : List Char) : Option Int × List Char :=
  match valueWithDesignator desig s with
  | some (n, r) => (some n, r)
  | none => (none, s)

/-- `IcalDuration::parse_week_format`
(src/provider/ical/calendar.rs:66-82). -/
def parseWeekFormat (s : List Char) : Option (IcalDuration × List Char) :=
  match valueWithDesignator 'W' s with
  | some (w, r) => some (⟨1, 0, 0, w, 0, 0, 0, 0⟩, r)
  | none => none

/-- `IcalDuration::parse_datetime_format`
(src/provider/ical/calendar.rs:84-128): optional Y, M, D components,
then an optional `T` introducing optional H, M, S components; the parse
fails when every component is absent. -/
def parseDatetimeFormat (s : List Char) : Option (IcalDuration × List Char) :=
  let (years, s1) := optVal 'Y' s
  let (months, s2) := optVal 'M' s1
  let (days, s3) := optVal 'D' s2
  let (hms, s4) :=
    match s3 with
    | 'T' :: t1 =>
      let (h, t2) := optVal 'H' t1
      let (m, t3) := optVal 'M' t2
      let (sec, t4) := optVal 'S' t3
      ((h, m, sec), t4)
    | _ => ((none, none, none), s3)
  if years.isNone && months.isNone && days.isNone
      && hms.1.isNone && hms.2.1.isNone && hms.2.2.isNone then
    none
  else
    some (⟨1, years.getD 0, months.getD 0, 0, days.getD 0,
      hms.1.getD 0, hms.2.1.getD 0, hms.2.2.getD 0⟩, s4)

/-- Result type distinguishing returned parse errors from panics
(`unwrap` on a value that is absent or an error). -/
inductive Outcome (α : Type) where
  | ok (a : α)
  | err (k : ErrorKind)
  | panicked
deriving Repr, DecidableEq

/-- `IcalDuration::from_str` (src/provider/ical/calendar.rs:146-179):
optional sign, then `P`, then the week form or the datetime form
(`alt` tries the week form first), with `all_consuming` requiring the
whole input to be used; the sign is `-1` exactly for a leading `-`.
Both failure sites use `.or_else(|err| { return Err(Error::new(
DurationParse, ..)); }).unwrap()`; the closure's `return` only leaves
the closure, so `.unwrap()` runs on the freshly built `Err` and the
function panics on malformed input instead of returning the
`DurationParse` error it constructs. (The first `unwrap`, after
`parse_sign`, is unreachable: `opt(one_of(..))` never fails.) A missing
`P`, a failed week/datetime parse, and leftover input after
`all_consuming` therefore all end in `panicked`. -/
def icalDurationFromStr (s : String) : Outcome IcalDuration :=
  let (sign, rest) := parseSign s.data
  match rest with
  | 'P' :: rest2 =>
    let parsed :=
      match parseWeekFormat rest2 with
      | some r => some r
      | none => parseDatetimeFormat rest2
    match parsed with
    | some (d, remaining) =>
      if remaining = [] then
        .ok { d with sign := if sign = some '-' then -1 else 1 }
      else .panicked
    | none => .panicked
  | _ => .panicked

/-- `IcalDuration::as_chrono_duration`
(src/provider/ical/calendar.rs:130-140). Faithful to the source, which
sums the year (360-day), month (30-day), week, hour, minute and second
components but omits the `days` field from the sum. -/
def asChronoDuration (d : IcalDuration) : Int :=
  d.sign * ((d.years * 12 * 30 * 24 * 60 * 60) + (d.months * 30 * 24 * 60 * 60)
    + (d.weeks * 7 * 24 * 60 * 60) + (d.hours * 60 * 60) + (d.minutes * 60) + d.seconds)

/-- The documented total-seconds approximation from the spec: sign times
(years as 360 days, months as 30 days, weeks as 7 days, plus days,
hours, minutes and seconds). Stated from the spec's words for
comparison with `asChronoDuration`. -/
def specDurationSeconds (d : IcalDuration) : Int :=
  d.sign * (d.years * 360 * 86400 + d.months * 30 * 86400 + d.weeks * 7 * 86400
    + d.days * 86400 + d.hours * 3600 + d.minutes * 60 + d.seconds)

/-- The timezone identifiers (`chrono_tz::Tz`) occurring in this
development: UTC, a plain fixed-offset zone, and a synthetic zone with a
DST fold (a local hour that occurs twice), enough to observe the
earliest/latest disambiguation choices the source makes. -/
inductive TzId where
  | utc
  | berlin
  | foldZone
deriving Repr, DecidableEq

/-- Base offset (seconds east of UTC) of each modelled zone. -/
def tzOffset : TzId → Int
  | .utc => 0
  | .berlin => 3600
  | .foldZone => 3600

/-- Start of the hour of local time that `foldZone` repeats. -/
def foldStart : Int := 1000000000

/-- `TimeZone::from_local_datetime`: the ascending list of instants
(UTC seconds) at which a naive local datetime occurs in the zone. In
`foldZone`, local times in `[foldStart, foldStart + 3600)` occur twice:
first while the pre-transition offset 7200 is in force, then at the
base offset 3600. `earliest()` is the head of this list, `latest()` its
last element. -/
def fromLocalCandidates (tz : TzId) (l : Int) : List Int :=
  match tz with
  | .utc => [l]
  | .berlin => [l - 3600]
  | .foldZone =>
    if foldStart ≤ l ∧ l < foldStart + 3600 then [l - 7200, l - 3600] else [l - 3600]

/-- The `str::parse::<chrono_tz::Tz>` name table, restricted to the
modelled zones; any other name fails to parse. -/
def parseTzName : String → Option TzId
  | "UTC" => some .utc
  | "Europe/Berlin" => some .berlin
  | "Test/Fold" => some .foldZone
  | _ => none

/-- Whether a civil year is a leap year. -/
def isLeapYear (y : Int) : Bool :=
  (y % 4 = 0 ∧ y % 100 ≠ 0) ∨ y % 400 = 0

/-- Number of days in a civil month. -/
def daysInMonth (y m : Int) : Int :=
  if m = 1 ∨ m = 3 ∨ m = 5 ∨ m = 7 ∨ m = 8 ∨ m = 10 ∨ m = 12 then 31
  else if m = 4 ∨ m = 6 ∨ m = 9 ∨ m = 11 then 30
  else if isLeapYear y then 29 else 28

/-- Day count since 1970-01-01 of the civil date `y-m-d` (the standard
era-based civil calendar conversion used to realize chrono's
`NaiveDate` values as day counts). -/
def daysFromCivil (y m d : Int) : Int :=
  let y2 := if m ≤ 2 then y - 1 else y
  let era := y2.fdiv 400
  let yoe := y2 - era * 400
  let doy := (153 * (m + (if 2 < m then -3 else 9)) + 2).fdiv 5 + d - 1
  let doe := yoe * 365 + yoe.fdiv 4 - yoe.fdiv 100 + doy
  era * 146097 + doe - 719468

/-- Modelled from the spec: parsing with the date format constant
`ISO8601_2004_LOCAL_FORMAT_DATE` ("YYYYMMDD"); the constant lives in
src/provider/ical/mod.rs, which is not among the provided sources, and
chrono's strftime engine is external. Accepts exactly eight digits
forming a valid civil date and yields its day count. -/
def parseDateStr (s : List Char) : Option Int :=
  match s with
  | [y1, y2, y3, y4, m1, m2, d1, d2] =>
    if [y1, y2, y3, y4, m1, m2, d1, d2].all Char.isDigit then
      let y : Int := (digitsToNat [y1, y2, y3, y4] : Int)
      let m : Int := (digitsToNat [m1, m2] : Int)
      let d : Int := (digitsToNat [d1, d2] : Int)
      if 1 ≤ m ∧ m ≤ 12 ∧ 1 ≤ d ∧ d ≤ daysInMonth y m then
        some (daysFromCivil y m d)
      else none
    else none
  | _ => none

/-- Modelled from the spec: parsing with the datetime format constant
`ISO8601_2004_LOCAL_FORMAT` ("YYYYMMDDTHHMMSS"; the trailing UTC marker
`Z` is tolerated by the format, and is inspected separately by the
caller via `ends_with`). Yields naive seconds. The constant lives in
src/provider/ical/mod.rs, which is not among the provided sources. -/
def parseDateTimeStr (s : List Char) : Option Int :=
  let core := if s.getLast? = some 'Z' then s.dropLast else s
  match core with
  | [y1, y2, y3, y4, mo1, mo2, d1, d2, t, h1, h2, mi1, mi2, s1, s2] =>
    if t = 'T' ∧ [y1, y2, y3, y4, mo1, mo2, d1, d2, h1, h2, mi1, mi2, s1, s2].all Char.isDigit then
      let h : Int := (digitsToNat [h1, h2] : Int)
      let mi : Int := (digitsToNat [mi1, mi2] : Int)
      let sec : Int := (digitsToNat [s1, s2] : Int)
      if h ≤ 23 ∧ mi ≤ 59 ∧ sec ≤ 59 then
        match parseDateStr [y1, y2, y3, y4, mo1, mo2, d1, d2] with
        | some day => some (day * secPerDay + h * 3600 + mi * 60 + sec)
        | none => none
      else none
    else none
  | _ => none

/-- An ical property (`ical::property::Property`): name, optional
parameter list, optional value. -/
structure IcalProp where
  name : String
  params : Option (List (String × List String))
  value : Option String
deriving Repr, DecidableEq

/-- `IcalDateTime` (src/provider/ical/calendar.rs:201-207). `localTz`
carries the zone together with the resolved instant (UTC seconds), as
chrono's `DateTime<chrono_tz::Tz>` does. -/
inductive IcalDateTime where
  | date (d : Int)
  | floating (dt : Int)
  | utc (dt : Int)
  | localTz (tz : TzId) (dt : Int)
deriving Repr, DecidableEq

/-- Whether the property carries a `VALUE=DATE` type parameter (the
`find` at src/provider/ical/calendar.rs:222-229). The Rust predicate
indexes `o.1[0]`, which would panic on an empty parameter value list;
here the first element is inspected through `head?`. -/
def hasValueDate (p : IcalProp) : Bool :=
  match p.params with
  | some ps =>
    (ps.find? (fun (o : String × List String) => o.1 == "VALUE" && o.2.head? == some "DATE")).isSome
  | none => false

/-- The first `TZID` parameter of the property, when one is present
(the `find` at src/provider/ical/calendar.rs:237-243). -/
def findTzid (p : IcalProp) : Option (String × List String) :=
  match p.params with
  | some ps => ps.find? (fun (o : String × List String) => o.1 == "TZID")
  | none => none

/-- `IcalDateTime::try_from(&Property)`
(src/provider/ical/calendar.rs:209-267): a `VALUE=DATE` parameter forces
a bare-date parse; else a `TZID` parameter selects a zone (an unknown
zone name is a `DateParse` error); then a value parseable as a datetime
becomes a zoned instant (earliest candidate) when a zone was selected,
else a UTC instant when the text ends in `Z`, else a floating instant;
a value not parseable as a datetime falls back to a bare-date parse.
The Rust source indexes `option.1[0]` of the TZID parameter, which
panics on an empty parameter value list; this is `panicked` here. -/
def icalDateTimeTryFrom (p : IcalProp) : Outcome IcalDateTime :=
  match p.value with
  | none => .err .dateParse
  | some val =>
    if hasValueDate p then
      match parseDateStr val.data with
      | some d => .ok (.date d)
      | none => .err .dateParse
    else
      match findTzid p with
      | some (_, names) =>
        match names.head? with
        | none => .panicked
        | some nm =>
          match parseTzName nm with
          | none => .err .dateParse
          | some tz =>
            match parseDateTimeStr val.data with
            | some dt =>
              match (fromLocalCandidates tz dt).head? with
              | some inst => .ok (.localTz tz inst)
              | none => .panicked
            | none =>
              match parseDateStr val.data with
              | some d => .ok (.date d)
              | none => .err .dateParse
      | none =>
        match parseDateTimeStr val.data with
        | some dt =>
          if val.data.getLast? = some 'Z' then .ok (.utc dt) else .ok (.floating dt)
        | none =>
          match parseDateStr val.data with
          | some d => .ok (.date d)
          | none => .err .dateParse

/-- chrono `TimeZone::from_utc_date`: attaches the zone's offset to the
civil date without changing the stored date. -/
def fromUtcDate (_tz : TzId) (d : Int) : Int := d

/-- `IcalDateTime::as_datetime` (src/provider/ical/calendar.rs:321-328)
under the fixed-offset model, yielding the instant in UTC seconds:
`Date` is `from_utc_date(..).and_hms(0, 0, 0)` (midnight of the civil
date at the zone's offset), `Floating` is `from_utc_datetime` (the
naive value read as UTC), `Utc` and `Local` already carry their
instant. -/
def asDatetime (tz : TzId) : IcalDateTime → Int
  | .date d => d * secPerDay - tzOffset tz
  | .floating dt => dt
  | .utc dt => dt
  | .localTz _ dt => dt

/-- `IcalDateTime::as_date` (src/provider/ical/calendar.rs:330-337)
under the fixed-offset model: the civil date of the value in the target
zone. -/
def asDate (tz : TzId) : IcalDateTime → Int
  | .date d => d
  | .floating dt => dateOf dt
  | .utc dt => dateOf (dt + tzOffset tz)
  | .localTz _ dt => dateOf (dt + tzOffset tz)

/-- `Property -> IcalDuration` (src/provider/ical/calendar.rs:182-193):
an absent value is an `EventParse` error, otherwise `from_str` (which
returns the parsed duration or panics; see `icalDurationFromStr`). -/
def icalDurationTryFrom (p : IcalProp) : Outcome IcalDuration :=
  match p.value with
  | none => .err .eventParse
  | some v => icalDurationFromStr v

/-- The span-resolution step of `Event::from_ical`
(src/provider/ical/calendar.rs:500-560): the event's zone is the start
instant's zone when zoned, else UTC; an explicit DTEND takes priority
over DURATION; in the DTEND branch the source matches on the *end*
spec: an end of type DATE requires the start to be of type DATE too
(building an all-day span), any other end builds a `TimePoints` span
from the two resolved instants; the DURATION branch builds a
`Duration` span; with neither, a date-typed start yields a single
all-day span and any other start a zero-length `Instant`. -/
def eventSpan (dtstart : Option IcalProp) (dtend : Option IcalProp)
    (dur : Option IcalProp) : Outcome TimeSpan :=
  match dtstart with
  | none => .err .eventMissingKey
  | some sp =>
    match icalDateTimeTryFrom sp with
    | .panicked => .panicked
    | .err k => .err k
    | .ok dtstartSpec =>
      let tz :=
        match dtstartSpec with
        | .localTz z _ => z
        | _ => TzId.utc
      match dtend with
      | some ep =>
        match icalDateTimeTryFrom ep with
        | .panicked => .panicked
        | .err k => .err k
        | .ok dtendSpec =>
          match dtendSpec with
          | .date d =>
            match dtstartSpec with
            | .date bd => .ok (alldayUntil (fromUtcDate tz bd) (fromUtcDate tz d))
            | _ => .err .dateParse
          | e => .ok (fromStartAndEnd (asDatetime tz dtstartSpec) (asDatetime tz e))
      | none =>
        match dur with
        | some dp =>
          match icalDurationTryFrom dp with
          | .panicked => .panicked
          | .err k => .err k
          | .ok d => .ok (fromStartAndDuration (asDatetime tz dtstartSpec) (asChronoDuration d))
        | none =>
          match dtstartSpec with
          | .date _ => .ok (alldayOf (asDate tz dtstartSpec))
          | e => .ok (fromStart (asDatetime tz e))

/-- A parsed event file as the calendar index consumes it: its UID, its
canonicalized path, its timezone, and the (possibly unbounded, here
listed) realized occurrence start instants its occurrence rule
produces, in iteration order. -/
structure EvRec where
  uid : String
  path : String
  tz : TzId
  instants : List Int
deriving Repr, DecidableEq

/-- The timezone selection of `Calendar::from_dir`
(src/provider/ical/calendar.rs:782-787): the `events` map is read for
its first entry *before* the lazy `event_file_iter` has inserted
anything into it (insertion only happens in the loop at lines 791-800),
so the map consulted here is still the empty one created at line 757
and the `Tz::UTC` fallback is always taken. The parsed files are a
parameter for interface faithfulness only. -/
def fromDirTz (_files : List EvRec) : TzId :=
  let eventsMap : List (Int × EvRec) := []
  match eventsMap.head? with
  | some (_, e) => e.tz
  | none => TzId.utc

/-- The spec's description of the same selection: the first loaded
event's timezone, defaulting to UTC when the directory holds none.
Stated from the spec's words for comparison with `fromDirTz`. -/
def specCalendarTz (files : List EvRec) : TzId :=
  match files.head? with
  | some e => e.tz
  | none => TzId.utc

/-- The occurrence window filter applied by `Calendar::from_dir`
(src/provider/ical/calendar.rs:796-798) and by `add_for_path`
(src/provider/ical/calendar.rs:845-848): skip instants while they lie
before `now - 356d`, then take instants while they lie at or before
`now + 356d`. `now` is the wall clock at the moment the surrounding
function runs: load time in `from_dir`, reconciliation time in
`add_for_path`. -/
def windowFilter (now : Int) (instants : List Int) : List Int :=
  (instants.dropWhile (fun dt => decide (dt < now - 356 * secPerDay))).takeWhile
    (fun dt => decide (dt ≤ now + 356 * secPerDay))

/-- The index-building loop of `Calendar::from_dir`
(src/provider/ical/calendar.rs:791-800): each surviving event
contributes one index entry per windowed occurrence instant. The
`BTreeMap<DateTime, Vec<Rc<Event>>>` is flattened into its entry list. -/
def fromDirIndex (now : Int) (files : List EvRec) : List (Int × EvRec) :=
  files.foldl (fun idx ev => idx ++ (windowFilter now ev.instants).map (fun dt => (dt, ev))) []

/-- `Event::matches` (src/provider/ical/calendar.rs:632-638): compare by
the UID parsed from the path's file stem when it parses as a UUID, else
by path equality. The UUID parser of the `uuid` crate is external and
passed in as `uuidParse`. -/
def evMatches (uuidParse : String → Option String) (ev : EvRec) (path : String) : Bool :=
  match uuidParse path with
  | some u => ev.uid == u
  | none => ev.path == path

/-- `remove_for_path` (src/provider/ical/calendar.rs:823-829): retain
every index entry whose event does not match the path (path
canonicalization is the identity here). Empty instant buckets vanish
with their last entry in the flattened representation. -/
def removeForPath (uuidParse : String → Option String)
    (idx : List (Int × EvRec)) (path : String) : List (Int × EvRec) :=
  idx.filter (fun e => !evMatches uuidParse e.2 path)

/-- `add_for_path` (src/provider/ical/calendar.rs:830-850): parse the
file (`parseFile` standing for `Event::from_file`); on failure log and
return unchanged; on success insert one windowed entry per occurrence
instant, with the window anchored at the current `now`. -/
def addForPath (parseFile : String → Option EvRec) (now : Int)
    (idx : List (Int × EvRec)) (path : String) : List (Int × EvRec) :=
  match parseFile path with
  | none => idx
  | some ev => idx ++ (windowFilter now ev.instants).map (fun dt => (dt, ev))

/-- `ExternalModification` (src/provider/ical/calendar.rs:1106-1110). -/
inductive ExtMod where
  | create (path : String)
  | remove (path : String)
  | modify (path : String)
deriving Repr, DecidableEq

/-- One queued modification applied to the index
(src/provider/ical/calendar.rs:851-862): `Modify` is `Remove` followed
by `Create`. -/
def applyModification (uuidParse : String → Option String)
    (parseFile : String → Option EvRec) (now : Int)
    (idx : List (Int × EvRec)) : ExtMod → List (Int × EvRec)
  | .create p => addForPath parseFile now idx p
  | .remove p => removeForPath uuidParse idx p
  | .modify p => addForPath parseFile now (removeForPath uuidParse idx p) p

/-- One calendar's mutable state: its zone, its windowed occurrence
index, and its queue of pending watcher notifications. -/
structure CalendarSt where
  tz : TzId
  index : List (Int × EvRec)
  pending : List ExtMod
deriving Repr, DecidableEq

/-- `Calendar::process_external_modifications`
(src/provider/ical/calendar.rs:822-863): drain the queue in FIFO order,
applying each entry to the index. -/
def calProcessExternalModifications (uuidParse : String → Option String)
    (parseFile : String → Option EvRec) (now : Int) (c : CalendarSt) : CalendarSt :=
  { c with
    index := c.pending.foldl (applyModification uuidParse parseFile now) c.index
    pending := [] }

/-- One realized occurrence of an event, as the agenda sees it: the
event's UID and one concrete span. Also the shape of an
`OwningCacheLine` (src/agenda.rs:18). The `filter_events` range filter
selects realized occurrences by their start instant (the calendar index
key), which is the span's begin. -/
structure UidSpan where
  uid : String
  span : TimeSpan
deriving Repr, DecidableEq

/-- `Calendarlike::filter_events` with a bounded datetime range
(src/provider/ical/calendar.rs:892-921): the realized occurrences whose
start instant lies in the half-open queried range. `cals` is the merged
realized-occurrence list of all calendars, in calendar iteration
order. -/
def filterEvents (cals : List UidSpan) (lo hi : Int) : List UidSpan :=
  cals.filter (fun o => decide (lo ≤ tsBegin o.span) && decide (tsBegin o.span < hi))

/-- The occurrence cache (src/agenda.rs:28-31) as the partial map
underlying its `BTreeMap<NaiveDate, Vec<OwningCacheLine>>`: `none`
means the date key is absent (never populated). -/
def Cache : Type := Int → Option (List UidSpan)

/-- `entry(date).or_default().push(line)` (src/agenda.rs:53-56). -/
def cachePush (c : Cache) (d : Int) (line : UidSpan) : Cache :=
  fun x => if x = d then some ((c d).getD [] ++ [line]) else c x

/-- The inner loop of `OccurrenceCache::add` (src/agenda.rs:46-57): one
cache line per day-slice of the occurrence, keyed by the slice's begin
date. -/
def cacheAddOcc (c : Cache) (occ : UidSpan) : Cache :=
  (occDays occ.span).foldl (fun acc day => cachePush acc (dateOf (tsBegin day)) ⟨occ.uid, day⟩) c

/-- `OccurrenceCache::add` (src/agenda.rs:34-59). -/
def cacheAdd (c : Cache) (occs : List UidSpan) : Cache :=
  occs.foldl cacheAddOcc c

/-- `Agenda::add_to_cache` (src/agenda.rs:201-220): remove a stale
bucket for the date if one is present, then add every calendar's
occurrences whose start instant falls inside that whole day. -/
def addToCache (cals : List UidSpan) (c : Cache) (date : Int) : Cache :=
  let c1 : Cache := if (c date).isSome then (fun x => if x = date then none else c x) else c
  cacheAdd c1 (filterEvents cals (date * secPerDay) ((date + 1) * secPerDay))

/-- The population loop of `Agenda::fetch_maybe_cached`
(src/agenda.rs:161-168): walk the queried dates in order and populate
each date found absent at its turn (the `filter` re-checks the cache at
every step, so dates created as a side effect of an earlier
`add_to_cache` are skipped). -/
def populateRange (cals : List UidSpan) (c : Cache) : List Int → Cache
  | [] => c
  | d :: ds =>
    if (c d).isSome then populateRange cals c ds
    else populateRange cals (addToCache cals c d) ds

/-- `OccurrenceCache::fetch_range` over `begin_date..=end_date`
(src/agenda.rs:65-72): the cache lines of every present date key in the
inclusive range, in ascending key order (each key of the `BTreeMap`
range appears exactly once among `dateRange a b`). -/
def fetchRange (c : Cache) (a b : Int) : List UidSpan :=
  (dateRange a b).foldr (fun d acc => (c d).getD [] ++ acc) []

/-- `std::ops::Bound<NaiveDateTime>` as used by the range queries. -/
inductive RBound where
  | included (t : Int)
  | excluded (t : Int)
  | unbounded
deriving Repr, DecidableEq

/-- The bound destructuring of `Agenda::fetch_maybe_cached`
(src/agenda.rs:144-152): both `Included` and `Excluded` yield their
instant; `Unbounded` yields nothing. -/
def boundValue : RBound → Option Int
  | .included t => some t
  | .excluded t => some t
  | .unbounded => none

/-- `Agenda::fetch_maybe_cached` (src/agenda.rs:140-188): `none` when a
bound is unbounded ("range cannot be cached"); otherwise populate every
absent date between the bounds' dates inclusive and flatten the cache
lines of that date range. The per-line `find_by_uid` re-resolution is
an injective relabelling of the line and the results are modelled as
the lines themselves. The new cache is returned alongside. -/
def fetchMaybeCached (cals : List UidSpan) (c : Cache) (b1 b2 : RBound) :
    Option (Cache × List UidSpan) :=
  match boundValue b1, boundValue b2 with
  | some s, some e =>
    let beginDate := dateOf s
    let endDate := dateOf e
    let c1 := populateRange cals c (dateRange beginDate endDate)
    some (c1, fetchRange c1 beginDate endDate)
  | _, _ => none

/-- The agenda's state (src/agenda.rs:90-96): the owned calendars and
the occurrence cache behind its `RefCell`. -/
structure AgendaSt where
  calendars : List CalendarSt
  cache : Cache

/-- `Agenda::process_external_modifications` (src/agenda.rs:306-310):
forward to every owned calendar's reconciliation. The occurrence cache
field is not mentioned by the loop. -/
def agendaProcessExternalModifications (uuidParse : String → Option String)
    (parseFile : String → Option EvRec) (now : Int) (a : AgendaSt) : AgendaSt :=
  { a with
    calendars := a.calendars.map (calProcessExternalModifications uuidParse parseFile now) }

/-- Discriminator used to state that a parse result is not a floating
instant. -/
def isFloatingDT : IcalDateTime → Bool
  | .floating _ => true
  | _ => false

/-- The decomposition shape the day-slice claim asserts for a multi-day
span from `f` to `t`: `numDays` slices, the first a `TimePoints` slice
from the begin to the following midnight, the last a `TimePoints` slice
from the end date's midnight to the end, every slice strictly between
an allday slice, consecutive slices covering abutting intervals (no gap
and no overlap), the concatenated coverage running exactly from the
span's begin to its end, and every interior boundary lying on a local
midnight. -/
def timePointsDecomposition (f t : Int) (slices : List TimeSpan) : Prop :=
  (slices.length : Int) = numDays (.timePoints f t) ∧
  slices.head? = some (.timePoints f ((dateOf f + 1) * secPerDay)) ∧
  slices.getLast? = some (.timePoints (dateOf t * secPerDay) t) ∧
  (∀ x ∈ (slices.drop 1).dropLast, ∃ d, x = TimeSpan.allday d none ∧ dateOf f < d ∧ d < dateOf t) ∧
  List.Chain' (fun u v => coverEnd u = coverBegin v) slices ∧
  slices.head?.map coverBegin = some f ∧
  slices.getLast?.map coverEnd = some t ∧
  (∀ x ∈ slices.drop 1, ∃ k : Int, coverBegin x = k * secPerDay)

theorem dateRangeAux_len (a : Int) (n : Nat) : (dateRangeAux a n).length = n := by
  induction n generalizing a with
  | zero => rfl
  | succ n ih => simp [dateRangeAux, ih]

theorem dateRange_len (a b : Int) : (dateRange a b).length = (b - a + 1).toNat :=
  dateRangeAux_len a _

theorem mem_dateRangeAux {a x : Int} {n : Nat} :
    x ∈ dateRangeAux a n ↔ a ≤ x ∧ x < a + n := by
  induction n generalizing a with
  | zero =>
    simp only [dateRangeAux, List.not_mem_nil, false_iff, not_and, not_lt]
    omega
  | succ n ih =>
    simp only [dateRangeAux, List.mem_cons, ih]
    omega

theorem mem_dateRange {a b x : Int} : x ∈ dateRange a b ↔ a ≤ x ∧ x ≤ b := by
  rw [dateRange, mem_dateRangeAux]
  omega

theorem dateRange_eq_cons {a b : Int} (h : a ≤ b) :
    dateRange a b = a :: dateRange (a + 1) b := by
  have hn : (b - a + 1).toNat = (b - (a + 1) + 1).toNat + 1 := by omega
  rw [dateRange, hn, dateRangeAux, dateRange]

theorem dateRangeAux_snoc (a : Int) (n : Nat) :
    dateRangeAux a (n + 1) = dateRangeAux a n ++ [a + n] := by
  induction n generalizing a with
  | zero => simp [dateRangeAux]
  | succ n ih =>
    rw [dateRangeAux, ih, dateRangeAux]
    simp only [List.cons_append, List.cons.injEq, true_and]
    congr 2
    omega

theorem dateRange_eq_snoc {a b : Int} (h : a ≤ b) :
    dateRange a b = dateRange a (b - 1) ++ [b] := by
  have hn : (b - a + 1).toNat = (b - 1 - a + 1).toNat + 1 := by omega
  rw [dateRange, hn, dateRangeAux_snoc, dateRange]
  congr 2
  omega

/-- C2: at the failing input "P1D" the grammar accepts the string and
stores the day component, but `as_chrono_duration` omits the `days`
field from its sum, so the source computes 0 seconds where the
documented approximation gives 86400 (in general the two differ by
exactly the dropped days component). The rejection half of the claim
also diverges from the source: both failure sites of `from_str` build a
`DurationParse` error inside an `or_else` closure whose `return` only
leaves the closure, then `unwrap` the resulting `Err`, so the malformed
inputs "P", "1D" and "PXD" make the parser panic — and no input at all
makes it return the `DurationParse` error that the claim (and the
error value the source constructs) describe. -/
theorem icalDuration_days_dropped_malformed_panics :
    icalDurationFromStr "P1D" = .ok ⟨1, 0, 0, 0, 1, 0, 0, 0⟩ ∧
    asChronoDuration ⟨1, 0, 0, 0, 1, 0, 0, 0⟩ = 0 ∧
    specDurationSeconds ⟨1, 0, 0, 0, 1, 0, 0, 0⟩ = 86400 ∧
    (∀ d : IcalDuration, specDurationSeconds d
      = asChronoDuration d + d.sign * (d.days * 86400)) ∧
    icalDurationFromStr "P" = .panicked ∧
    icalDurationFromStr "1D" = .panicked ∧
    icalDurationFromStr "PXD" = .panicked ∧
    (∀ (s : String) (k : ErrorKind), icalDurationFromStr s ≠ .err k) := by
  refine ⟨rfl, by decide, by decide,
    fun d => by simp only [specDurationSeconds, asChronoDuration]; ring,
    rfl, rfl, rfl, ?_⟩
  intro s k h
  unfold icalDurationFromStr at h
  repeat' split at h
  all_goals (try dsimp only [] at h)
  all_goals (try (repeat' split at h))
  all_goals simp_all

/-- C4: `Calendar::from_dir` consults the still-empty events map for
the calendar timezone, so the computed timezone is UTC for every
directory — including one whose first (and only) loaded event carries
the Europe/Berlin zone, where the spec's rule demands Europe/Berlin. -/
theorem fromDir_tz_always_utc :
    fromDirTz [⟨"a", "a.ics", .berlin, []⟩] = .utc ∧
    specCalendarTz [⟨"a", "a.ics", .berlin, []⟩] = .berlin ∧
    TzId.utc ≠ TzId.berlin ∧
    (∀ files : List EvRec, fromDirTz files = .utc) :=
  ⟨rfl, rfl, by decide, fun _ => rfl⟩

/-- C6: with an explicit end property, the date-type consistency check
of `Event::from_ical` fires in the direction opposite to the claim: a
date-typed start with a datetime end is accepted as a `TimePoints` span
(first conjunct, the failing input), while a datetime start with a
date-typed end is rejected with a `DateParse` error (second conjunct);
the both-dates case builds the all-day span as stated (third
conjunct). -/
theorem eventSpan_dtend_check_reversed :
    eventSpan (some ⟨"DTSTART", some [("VALUE", ["DATE"])], some "20240101"⟩)
        (some ⟨"DTEND", none, some "20240102T120000Z"⟩) none
      = .ok (.timePoints (19723 * 86400) (19724 * 86400 + 12 * 3600)) ∧
    eventSpan (some ⟨"DTSTART", none, some "20240101T090000Z"⟩)
        (some ⟨"DTEND", some [("VALUE", ["DATE"])], some "20240102"⟩) none
      = .err .dateParse ∧
    eventSpan (some ⟨"DTSTART", some [("VALUE", ["DATE"])], some "20240101"⟩)
        (some ⟨"DTEND", some [("VALUE", ["DATE"])], some "20240103"⟩) none
      = .ok (alldayUntil 19723 19725) :=
  ⟨rfl, rfl, rfl⟩

/-- C3 counterexample: the core constructs a span with `end() < begin()`.
Parsing an event whose DURATION property is "-PT1H" yields a `Duration`
span of -3600 seconds, for which `end()` lies strictly before
`begin()`, contradicting the unconditional span invariant. -/
theorem timeSpan_negative_duration_violates_invariant :
    eventSpan (some ⟨"DTSTART", none, some "20240101T120000Z"⟩) none
        (some ⟨"DURATION", none, some "-PT1H"⟩)
      = .ok (fromStartAndDuration (19723 * 86400 + 12 * 3600) (-3600)) ∧
    tsEnd (fromStartAndDuration (19723 * 86400 + 12 * 3600) (-3600))
      < tsBegin (fromStartAndDuration (19723 * 86400 + 12 * 3600) (-3600)) :=
  ⟨rfl, by decide⟩

/-- C3 (amended): `end() >= begin()` holds for every variant under the
natural orderedness of the constructor arguments — always for `Instant`
and single-date `Allday` spans, for `Allday` spans whose end date is
not before their start date, for `TimePoints` spans with ordered
endpoints, and for `Duration` spans with nonnegative length — and the
allday `end()` is the end date (falling back to the start date) at
23:59:59. `begin()`/`end()` are total over the four variants by
construction (`tsBegin`/`tsEnd` are total functions). -/
theorem timeSpan_invariant_conditional :
    (∀ d : Int, tsBegin (alldayOf d) ≤ tsEnd (alldayOf d)) ∧
    (∀ a b : Int, a ≤ b → tsBegin (alldayUntil a b) ≤ tsEnd (alldayUntil a b)) ∧
    (∀ a b : Int, a ≤ b → tsBegin (fromStartAndEnd a b) ≤ tsEnd (fromStartAndEnd a b)) ∧
    (∀ a dur : Int, 0 ≤ dur →
      tsBegin (fromStartAndDuration a dur) ≤ tsEnd (fromStartAndDuration a dur)) ∧
    (∀ a : Int, tsBegin (fromStart a) ≤ tsEnd (fromStart a)) ∧
    (∀ d e : Int, tsEnd (alldayUntil d e) = e * secPerDay + 86399) ∧
    (∀ d : Int, tsEnd (alldayOf d) = d * secPerDay + 86399) := by
  refine ⟨?_, ?_, ?_, ?_, ?_, ?_, ?_⟩
  · intro d
    simp only [alldayOf, tsBegin, tsEnd, Option.getD, secPerDay]
    omega
  · intro a b h
    simp only [alldayUntil, tsBegin, tsEnd, Option.getD, secPerDay]
    omega
  · intro a b h
    simpa only [fromStartAndEnd, tsBegin, tsEnd] using h
  · intro a dur h
    simp only [fromStartAndDuration, tsBegin, tsEnd]
    omega
  · intro a
    simp [fromStart, tsBegin, tsEnd]
  · intro d e
    simp [alldayUntil, tsEnd]
  · intro d
    simp [alldayOf, tsEnd]

/-- Witness for the conditional span invariant at concrete inputs. -/
theorem timeSpan_invariant_conditional_witness :
    ((0 : Int) ≤ 2 ∧ tsBegin (alldayUntil 0 2) ≤ tsEnd (alldayUntil 0 2)) ∧
    ((5 : Int) ≤ 9 ∧ tsBegin (fromStartAndEnd 5 9) ≤ tsEnd (fromStartAndEnd 5 9)) ∧
    ((0 : Int) ≤ 100 ∧
      tsBegin (fromStartAndDuration 5 100) ≤ tsEnd (fromStartAndDuration 5 100)) :=
  ⟨⟨by decide, timeSpan_invariant_conditional.2.1 0 2 (by decide)⟩,
   ⟨by decide, timeSpan_invariant_conditional.2.2.1 5 9 (by decide)⟩,
   ⟨by decide, timeSpan_invariant_conditional.2.2.2.1 5 100 (by decide)⟩⟩

/-- C5 counterexample: a start property whose value is a bare date but
which carries no `VALUE=DATE` parameter resolves to a bare date through
the fallback branch, not to the floating instant the claim's final arm
prescribes. -/
theorem icalDateTime_bare_date_not_floating :
    icalDateTimeTryFrom ⟨"DTSTART", none, some "20240101"⟩ = .ok (.date 19723) ∧
    isFloatingDT (.date 19723) = false :=
  ⟨rfl, rfl⟩

/-- C9: `Agenda::process_external_modifications` maps every owned
calendar through its own reconciliation and leaves the occurrence cache
untouched — the cache component of the resulting state is the very same
map, for every starting state and in particular regardless of which
reconciled changes affect dates that are already cached. -/
theorem agenda_reconciliation_cache_frame
    (uuidParse : String → Option String) (parseFile : String → Option EvRec)
    (now : Int) (a : AgendaSt) :
    (agendaProcessExternalModifications uuidParse parseFile now a).cache = a.cache ∧
    (agendaProcessExternalModifications uuidParse parseFile now a).calendars
      = a.calendars.map (calProcessExternalModifications uuidParse parseFile now) :=
  ⟨rfl, rfl⟩

theorem mem_foldr_buckets (c : Cache) (l : List Int) (x : UidSpan) :
    x ∈ l.foldr (fun d acc => (c d).getD [] ++ acc) [] ↔ ∃ d ∈ l, x ∈ (c d).getD [] := by
  induction l with
  | nil => simp
  | cons d ds ih =>
    simp only [List.foldr_cons, List.mem_append, ih, List.mem_cons]
    constructor
    · rintro (hx | ⟨d2, hd2, hx⟩)
      · exact ⟨d, Or.inl rfl, hx⟩
      · exact ⟨d2, Or.inr hd2, hx⟩
    · rintro ⟨d2, hd2 | hd2, hx⟩
      · exact Or.inl (hd2 ▸ hx)
      · exact Or.inr ⟨d2, hd2, hx⟩

/-- C10: for bounded range queries, `fetch_maybe_cached` destructures
`Included` and `Excluded` bounds identically (all four inclusivity
combinations return the same cache and the same results), and the
result consists of exactly the cached day-slices of the populated cache
for every calendar date from the start bound's date through the end
bound's date, both inclusive. The final conjunct exhibits the
consequence named by the claim: with an exclusive end at second 10 of
day 0, an occurrence at second 50000 of day 0 — strictly after the end
instant — is still returned. -/
theorem eventsIn_whole_day_granularity (cals : List UidSpan) (c : Cache) (s e : Int) :
    (fetchMaybeCached cals c (.included s) (.included e)
      = fetchMaybeCached cals c (.excluded s) (.excluded e)) ∧
    (fetchMaybeCached cals c (.included s) (.included e)
      = fetchMaybeCached cals c (.included s) (.excluded e)) ∧
    (fetchMaybeCached cals c (.included s) (.included e)
      = fetchMaybeCached cals c (.excluded s) (.included e)) ∧
    (fetchMaybeCached cals c (.included s) (.excluded e)
      = some (populateRange cals c (dateRange (dateOf s) (dateOf e)),
          fetchRange (populateRange cals c (dateRange (dateOf s) (dateOf e)))
            (dateOf s) (dateOf e))) ∧
    (∀ line,
      line ∈ fetchRange (populateRange cals c (dateRange (dateOf s) (dateOf e)))
          (dateOf s) (dateOf e) ↔
        ∃ d, dateOf s ≤ d ∧ d ≤ dateOf e ∧
          line ∈ ((populateRange cals c (dateRange (dateOf s) (dateOf e))) d).getD []) ∧
    ((fetchMaybeCached [⟨"u", .instant 50000⟩] (fun _ => none)
        (.included 0) (.excluded 10)).map (fun r => r.2)
      = some [⟨"u", .instant 50000⟩]) := by
  refine ⟨rfl, rfl, rfl, rfl, ?_, rfl⟩
  intro line
  rw [fetchRange, mem_foldr_buckets]
  constructor
  · rintro ⟨d, hd, hx⟩
    rw [mem_dateRange] at hd
    exact ⟨d, hd.1, hd.2, hx⟩
  · rintro ⟨d, h1, h2, hx⟩
    exact ⟨d, mem_dateRange.mpr ⟨h1, h2⟩, hx⟩

/-- C5 (amended): the instant property disambiguation, with the
bare-date fallback the source actually implements. A `VALUE=DATE`
parameter forces a bare-date parse of the value; otherwise, a value
parseable as a datetime resolves through the `TZID` zone when one is
present and parses (the ambiguous-local-time candidates resolved to
the earliest), else to UTC when the text ends in the UTC marker, else
to a floating instant; a value not parseable as a datetime falls back
to a bare date regardless of the `TZID` and UTC-marker arms. The
closed conjuncts exhibit the earliest-instant choice at a DST fold:
the repeated local time resolves to the earlier of its two candidate
instants. -/
theorem icalDateTime_disambiguation_amended (p : IcalProp) (val : String)
    (hv : p.value = some val) :
    (hasValueDate p = true →
      icalDateTimeTryFrom p = (match parseDateStr val.data with
        | some d => .ok (.date d)
        | none => .err .dateParse)) ∧
    (∀ k names nm tz dt, hasValueDate p = false → findTzid p = some (k, names) →
      names.head? = some nm → parseTzName nm = some tz →
      parseDateTimeStr val.data = some dt →
      icalDateTimeTryFrom p = (match (fromLocalCandidates tz dt).head? with
        | some inst => .ok (.localTz tz inst)
        | none => .panicked)) ∧
    (∀ dt, hasValueDate p = false → findTzid p = none →
      parseDateTimeStr val.data = some dt →
      icalDateTimeTryFrom p =
        (if val.data.getLast? = some 'Z' then .ok (.utc dt) else .ok (.floating dt))) ∧
    (∀ d, hasValueDate p = false → parseDateTimeStr val.data = none →
      parseDateStr val.data = some d →
      (findTzid p = none ∨
        (∃ k names nm tz, findTzid p = some (k, names) ∧ names.head? = some nm ∧
          parseTzName nm = some tz)) →
      icalDateTimeTryFrom p = .ok (.date d)) ∧
    (icalDateTimeTryFrom ⟨"DTSTART", some [("TZID", ["Test/Fold"])], some "20010909T014640"⟩
      = .ok (.localTz .foldZone (foldStart - 7200))) ∧
    (fromLocalCandidates .foldZone foldStart = [foldStart - 7200, foldStart - 3600]) := by
  refine ⟨?_, ?_, ?_, ?_, rfl, by decide⟩
  · intro hvd
    simp only [icalDateTimeTryFrom, hv, hvd, if_true]
  · intro k names nm tz dt hvd hft hnm htz hdt
    simp only [icalDateTimeTryFrom, hv, hvd, Bool.false_eq_true, if_false, hft, hnm, htz, hdt]
  · intro dt hvd hft hdt
    simp only [icalDateTimeTryFrom, hv, hvd, Bool.false_eq_true, if_false, hft, hdt]
  · intro d hvd hdt hds harm
    rcases harm with hft | ⟨k, names, nm, tz, hft, hnm, htz⟩
    · simp only [icalDateTimeTryFrom, hv, hvd, Bool.false_eq_true, if_false, hft, hdt, hds]
    · simp only [icalDateTimeTryFrom, hv, hvd, Bool.false_eq_true, if_false, hft, hnm, htz,
        hdt, hds]

/-- Witness for the amended disambiguation at a concrete floating-value
property. -/
theorem icalDateTime_disambiguation_amended_witness :
    ((⟨"DTSTART", none, some "20240101T120000"⟩ : IcalProp).value
      = some "20240101T120000") ∧
    ((hasValueDate ⟨"DTSTART", none, some "20240101T120000"⟩ = true →
      icalDateTimeTryFrom ⟨"DTSTART", none, some "20240101T120000"⟩
        = (match parseDateStr ("20240101T120000").data with
          | some d => .ok (.date d)
          | none => .err .dateParse)) ∧
    (∀ k names nm tz dt,
      hasValueDate ⟨"DTSTART", none, some "20240101T120000"⟩ = false →
      findTzid ⟨"DTSTART", none, some "20240101T120000"⟩ = some (k, names) →
      names.head? = some nm → parseTzName nm = some tz →
      parseDateTimeStr ("20240101T120000").data = some dt →
      icalDateTimeTryFrom ⟨"DTSTART", none, some "20240101T120000"⟩
        = (match (fromLocalCandidates tz dt).head? with
          | some inst => .ok (.localTz tz inst)
          | none => .panicked)) ∧
    (∀ dt, hasValueDate ⟨"DTSTART", none, some "20240101T120000"⟩ = false →
      findTzid ⟨"DTSTART", none, some "20240101T120000"⟩ = none →
      parseDateTimeStr ("20240101T120000").data = some dt →
      icalDateTimeTryFrom ⟨"DTSTART", none, some "20240101T120000"⟩
        = (if ("20240101T120000").data.getLast? = some 'Z' then .ok (.utc dt)
          else .ok (.floating dt))) ∧
    (∀ d, hasValueDate ⟨"DTSTART", none, some "20240101T120000"⟩ = false →
      parseDateTimeStr ("20240101T120000").data = none →
      parseDateStr ("20240101T120000").data = some d →
      (findTzid ⟨"DTSTART", none, some "20240101T120000"⟩ = none ∨
        (∃ k names nm tz,
          findTzid ⟨"DTSTART", none, some "20240101T120000"⟩ = some (k, names) ∧
          names.head? = some nm ∧ parseTzName nm = some tz)) →
      icalDateTimeTryFrom ⟨"DTSTART", none, some "20240101T120000"⟩ = .ok (.date d)) ∧
    (icalDateTimeTryFrom ⟨"DTSTART", some [("TZID", ["Test/Fold"])], some "20010909T014640"⟩
      = .ok (.localTz .foldZone (foldStart - 7200))) ∧
    (fromLocalCandidates .foldZone foldStart = [foldStart - 7200, foldStart - 3600])) :=
  ⟨rfl, icalDateTime_disambiguation_amended ⟨"DTSTART", none, some "20240101T120000"⟩
    "20240101T120000" rfl⟩

theorem takeWhile_le_eq_filter (hi : Int) :
    ∀ l : List Int, List.Sorted (· ≤ ·) l →
      l.takeWhile (fun x => decide (x ≤ hi)) = l.filter (fun x => decide (x ≤ hi)) := by
  intro l
  induction l with
  | nil => intro _; rfl
  | cons a t ih =>
    intro h
    obtain ⟨ha, ht⟩ := List.sorted_cons.mp h
    by_cases hc : a ≤ hi
    · simp only [List.takeWhile_cons, List.filter_cons, hc, decide_True, if_true, ih ht]
    · simp only [List.takeWhile_cons, List.filter_cons, hc, decide_False, if_false,
        Bool.false_eq_true]
      symm
      rw [List.filter_eq_nil_iff]
      intro x hx
      simp only [decide_eq_true_eq]
      have := ha x hx
      omega

theorem dropWhile_lt_eq_filter (lo : Int) :
    ∀ l : List Int, List.Sorted (· ≤ ·) l →
      l.dropWhile (fun x => decide (x < lo)) = l.filter (fun x => decide (lo ≤ x)) := by
  intro l
  induction l with
  | nil => intro _; rfl
  | cons a t ih =>
    intro h
    obtain ⟨ha, ht⟩ := List.sorted_cons.mp h
    by_cases hc : a < lo
    · have hnla : ¬ lo ≤ a := by omega
      simp only [List.dropWhile_cons, hc, decide_True, if_true, List.filter_cons, hnla,
        decide_False, Bool.false_eq_true, if_false, ih ht]
    · have hla : lo ≤ a := by omega
      simp only [List.dropWhile_cons, hc, decide_False, Bool.false_eq_true, if_false,
        List.filter_cons, hla, decide_True, if_true]
      congr 1
      symm
      rw [List.filter_eq_self]
      intro x hx
      simp only [decide_eq_true_eq]
      have := ha x hx
      omega

theorem windowFilter_eq_filter (now : Int) {l : List Int}
    (hs : List.Sorted (· ≤ ·) l) :
    windowFilter now l = l.filter (fun x =>
      decide (now - 356 * secPerDay ≤ x) && decide (x ≤ now + 356 * secPerDay)) := by
  unfold windowFilter
  rw [dropWhile_lt_eq_filter _ _ hs,
    takeWhile_le_eq_filter _ _ (List.Pairwise.filter _ hs), List.filter_filter]
  apply List.filter_congr
  intro x _
  simp only [Bool.and_comm]

theorem count_map_pair (l : List Int) (ev : EvRec) (dt : Int) :
    ((l.map (fun x => ((x, ev) : Int × EvRec))).count (dt, ev)) = l.count dt := by
  induction l with
  | nil => rfl
  | cons a t ih =>
    simp only [List.map_cons, List.count_cons, ih]
    congr 1
    by_cases h : a = dt
    · subst h; simp
    · simp [h, Prod.ext_iff]

/-- C7: with an ascending occurrence-instant stream (as rrule expansion
produces), the skip/take window of `from_dir` and of `add_for_path`
indexes exactly the occurrence instants inside
`[now - 356d, now + 356d]` — one index entry per in-window instant,
counting multiplicity, and no entry outside — where `now` is the wall
clock of the running function: load time during loading, reconciliation
time inside `add_for_path` (both call sites share the window filter, as
the last conjunct states for reconciliation-time creates). In
particular an open-ended ascending stream is cut at the first instant
past `now + 356d` and never indexed beyond. -/
theorem calendar_window_bound (now : Int) (ev : EvRec)
    (hs : List.Sorted (· ≤ ·) ev.instants) :
    (∀ dt : Int, (windowFilter now ev.instants).count dt =
      if now - 356 * secPerDay ≤ dt ∧ dt ≤ now + 356 * secPerDay
      then ev.instants.count dt else 0) ∧
    (∀ dt ∈ windowFilter now ev.instants,
      now - 356 * secPerDay ≤ dt ∧ dt ≤ now + 356 * secPerDay) ∧
    (∀ dt : Int, (fromDirIndex now [ev]).count (dt, ev)
      = (windowFilter now ev.instants).count dt) ∧
    (∀ (pf : String → Option EvRec) (idx : List (Int × EvRec)) (p : String),
      pf p = some ev →
      addForPath pf now idx p
        = idx ++ (windowFilter now ev.instants).map (fun dt => (dt, ev))) := by
  refine ⟨?_, ?_, ?_, ?_⟩
  · intro dt
    rw [windowFilter_eq_filter now hs]
    by_cases hw : now - 356 * secPerDay ≤ dt ∧ dt ≤ now + 356 * secPerDay
    · rw [if_pos hw]
      exact List.count_filter (by simp only [Bool.and_eq_true, decide_eq_true_eq]; exact hw)
    · rw [if_neg hw]
      rw [List.count_eq_zero]
      intro hmem
      have := List.mem_filter.mp hmem
      simp only [Bool.and_eq_true, decide_eq_true_eq] at this
      exact hw this.2
  · intro dt hmem
    rw [windowFilter_eq_filter now hs] at hmem
    have := List.mem_filter.mp hmem
    simpa only [Bool.and_eq_true, decide_eq_true_eq] using this.2
  · intro dt
    have hrw : fromDirIndex now [ev]
        = (windowFilter now ev.instants).map (fun dt => ((dt, ev) : Int × EvRec)) := rfl
    rw [hrw]
    exact count_map_pair _ ev dt
  · intro pf idx p hp
    simp [addForPath, hp]

/-- Witness for the window bound on a concrete ascending stream
straddling both window edges. -/
theorem calendar_window_bound_witness :
    List.Sorted (· ≤ ·) ([-40000000, 0, 86400, 40000000] : List Int) ∧
    (windowFilter 0 ([-40000000, 0, 86400, 40000000] : List Int)).count 86400 = 1 ∧
    (windowFilter 0 ([-40000000, 0, 86400, 40000000] : List Int)).count 40000000 = 0 := by
  have hs : List.Sorted (· ≤ ·) ([-40000000, 0, 86400, 40000000] : List Int) := by
    decide
  refine ⟨hs, ?_, ?_⟩
  · have h := (calendar_window_bound 0 ⟨"u", "p", .utc, [-40000000, 0, 86400, 40000000]⟩ hs).1
    have h2 := h 86400
    rw [if_pos (by norm_num [secPerDay])] at h2
    simpa using h2
  · have h := (calendar_window_bound 0 ⟨"u", "p", .utc, [-40000000, 0, 86400, 40000000]⟩ hs).1
    have h2 := h 40000000
    rw [if_neg (by norm_num [secPerDay])] at h2
    exact h2

theorem dateOf_mul (d : Int) : dateOf (d * secPerDay) = d := by
  simp only [dateOf, secPerDay]
  omega

theorem dateOf_mul_add (d r : Int) (h0 : 0 ≤ r) (h1 : r < 86400) :
    dateOf (d * secPerDay + r) = d := by
  simp only [dateOf, secPerDay]
  omega

theorem dateRange_head {a b : Int} (h : a ≤ b) : (dateRange a b).head? = some a := by
  rw [dateRange_eq_cons h, List.head?_cons]

theorem dateRange_getLast {a b : Int} (h : a ≤ b) : (dateRange a b).getLast? = some b := by
  rw [dateRange_eq_snoc h, List.getLast?_append]
  rfl

theorem unroll_eq {f t : Int} (hd : dateOf f < dateOf t) :
    unroll f t = .timePoints f ((dateOf f + 1) * secPerDay)
      :: ((dateRange (dateOf f + 1) (dateOf t - 1)).map (fun d => TimeSpan.allday d none)
          ++ [.timePoints (dateOf t * secPerDay) t]) := by
  unfold unroll
  rw [dateRange_eq_cons (le_of_lt hd), dateRange_eq_snoc (by omega : dateOf f + 1 ≤ dateOf t)]
  rw [List.map_cons, List.map_append, if_pos rfl]
  congr 1
  congr 1
  · apply List.map_congr_left
    intro d hd2
    rw [mem_dateRange] at hd2
    rw [if_neg (by omega), if_neg (by omega)]
  · rw [List.map_cons, List.map_nil, if_neg (by omega), if_pos rfl]

theorem chain_allday_aux (n : Nat) : ∀ a : Int,
    List.Chain' (fun u v => coverEnd u = coverBegin v)
      ((dateRangeAux a n).map (fun d => TimeSpan.allday d none)) := by
  induction n with
  | zero => intro a; simp [dateRangeAux]
  | succ n ih =>
    intro a
    cases n with
    | zero => simp [dateRangeAux]
    | succ m =>
      rw [dateRangeAux, dateRangeAux, List.map_cons, List.map_cons, List.chain'_cons]
      refine ⟨?_, ?_⟩
      · simp [coverEnd, coverBegin, Option.getD]
      · have h := ih (a + 1)
        rw [dateRangeAux, List.map_cons] at h
        exact h

theorem unroll_decomposition {f t : Int} (hd : dateOf f < dateOf t) :
    timePointsDecomposition f t (unroll f t) := by
  have hcons : unroll f t = .timePoints f ((dateOf f + 1) * secPerDay)
      :: ((dateRange (dateOf f + 1) (dateOf t - 1)).map (fun d => TimeSpan.allday d none)
          ++ [.timePoints (dateOf t * secPerDay) t]) := unroll_eq hd
  rw [timePointsDecomposition, hcons]
  have hmidlen : ((dateRange (dateOf f + 1) (dateOf t - 1)).map
      (fun d => TimeSpan.allday d none)).length = (dateOf t - dateOf f - 1).toNat := by
    rw [List.length_map, dateRange_len]
    congr 1
    omega
  refine ⟨?_, ?_, ?_, ?_, ?_, ?_, ?_, ?_⟩
  · simp only [List.length_cons, List.length_append, hmidlen, List.length_nil,
      numDays, tsBegin, tsEnd]
    push_cast
    omega
  · rfl
  · have : (TimeSpan.timePoints f ((dateOf f + 1) * secPerDay)
        :: ((dateRange (dateOf f + 1) (dateOf t - 1)).map (fun d => TimeSpan.allday d none)
            ++ [TimeSpan.timePoints (dateOf t * secPerDay) t]))
        = ((TimeSpan.timePoints f ((dateOf f + 1) * secPerDay)
            :: (dateRange (dateOf f + 1) (dateOf t - 1)).map (fun d => TimeSpan.allday d none))
          ++ [TimeSpan.timePoints (dateOf t * secPerDay) t]) := rfl
    rw [this, List.getLast?_append]
    rfl
  · intro x hx
    simp only [List.drop_succ_cons, List.drop_zero, List.dropLast_concat] at hx
    obtain ⟨d, hdm, rfl⟩ := List.mem_map.mp hx
    rw [mem_dateRange] at hdm
    exact ⟨d, rfl, by omega, by omega⟩
  · rw [List.chain'_cons']
    constructor
    · intro y hy
      rw [List.head?_append] at hy
      by_cases hmid : dateOf f + 1 ≤ dateOf t - 1
      · rw [List.head?_map, dateRange_head hmid, Option.map_some', Option.or_some] at hy
        simp only [Option.mem_def, Option.some.injEq] at hy
        subst hy
        simp [coverEnd, coverBegin]
      · have hnil : dateRange (dateOf f + 1) (dateOf t - 1) = [] := by
          rw [dateRange, show (dateOf t - 1 - (dateOf f + 1) + 1).toNat = 0 from by omega]
          rfl
        rw [hnil] at hy
        simp only [List.map_nil, List.head?_nil, Option.none_or, List.head?_cons,
          Option.mem_def, Option.some.injEq] at hy
        subst hy
        simp only [coverEnd, coverBegin, Option.getD]
        have hde : dateOf t = dateOf f + 1 := by omega
        rw [hde]
    · rw [List.chain'_append]
      refine ⟨chain_allday_aux _ _, by simp, ?_⟩
      intro u hu v hv
      simp only [List.head?_cons, Option.mem_def, Option.some.injEq] at hv
      subst hv
      by_cases hmid : dateOf f + 1 ≤ dateOf t - 1
      · rw [List.getLast?_map, dateRange_getLast hmid, Option.map_some'] at hu
        simp only [Option.mem_def, Option.some.injEq] at hu
        subst hu
        simp only [coverEnd, coverBegin, Option.getD]
        ring_nf
      · have hnil : dateRange (dateOf f + 1) (dateOf t - 1) = [] := by
          rw [dateRange, show (dateOf t - 1 - (dateOf f + 1) + 1).toNat = 0 from by omega]
          rfl
        rw [hnil] at hu
        simp at hu
  · rfl
  · have : (TimeSpan.timePoints f ((dateOf f + 1) * secPerDay)
        :: ((dateRange (dateOf f + 1) (dateOf t - 1)).map (fun d => TimeSpan.allday d none)
            ++ [TimeSpan.timePoints (dateOf t * secPerDay) t]))
        = ((TimeSpan.timePoints f ((dateOf f + 1) * secPerDay)
            :: (dateRange (dateOf f + 1) (dateOf t - 1)).map (fun d => TimeSpan.allday d none))
          ++ [TimeSpan.timePoints (dateOf t * secPerDay) t]) := rfl
    rw [this, List.getLast?_append]
    rfl
  · intro x hx
    simp only [List.drop_succ_cons, List.drop_zero, List.mem_append] at hx
    rcases hx with hx | hx
    · obtain ⟨d, _, rfl⟩ := List.mem_map.mp hx
      exact ⟨d, rfl⟩
    · simp only [List.mem_singleton] at hx
      subst hx
      exact ⟨dateOf t, rfl⟩

/-- C1 counterexample: a two-day allday Occurrence with an explicit end
decomposes into a single allday slice — not into the two slices (a
`TimePoints` slice to midnight followed by a `TimePoints` slice from
midnight) that the claim prescribes for every span touching two
calendar days; even the slice count differs from the number of days
touched. -/
theorem occDays_allday_shape_differs :
    occDays (.allday 0 (some 1)) = [.allday 0 none] ∧
    numDays (.allday 0 (some 1)) = 2 ∧
    ((occDays (.allday 0 (some 1))).length : Int) ≠ numDays (.allday 0 (some 1)) :=
  ⟨rfl, by decide, by decide⟩

/-- C1 (amended): `days()` returns the span itself whenever the span's
end date equals its begin date; a multi-day `TimePoints` span (and,
identically, a multi-day `Duration` span) decomposes into exactly
`num_days` slices — a `TimePoints` slice from the begin to the next
midnight, one allday slice per day strictly between, and a `TimePoints`
slice from the last midnight to the end — whose coverage abuts without
gap or overlap, runs exactly from the span's begin to its end, and has
every interior boundary on a local midnight; a multi-day allday span
with an explicit end instead yields one allday slice per date from its
begin date up to but excluding its end date. -/
theorem occurrence_days_decomposition :
    (∀ s : TimeSpan, dateOf (tsEnd s) = dateOf (tsBegin s) → occDays s = [s]) ∧
    (∀ f t : Int, dateOf f < dateOf t →
      timePointsDecomposition f t (occDays (.timePoints f t))) ∧
    (∀ a dur : Int, dateOf a < dateOf (a + dur) →
      occDays (.duration a dur) = occDays (.timePoints a (a + dur)) ∧
      timePointsDecomposition a (a + dur) (occDays (.duration a dur))) ∧
    (∀ b e : Int, b < e →
      occDays (.allday b (some e))
        = (dateRange b (e - 1)).map (fun d => TimeSpan.allday d none)) := by
  refine ⟨?_, ?_, ?_, ?_⟩
  · intro s h
    unfold occDays
    rw [if_neg]
    simp only [numDays, h]
    omega
  · intro f t hd
    have heq : occDays (.timePoints f t) = unroll f t := by
      unfold occDays
      rw [if_pos (by simp only [numDays, tsBegin, tsEnd]; omega)]
    rw [heq]
    exact unroll_decomposition hd
  · intro a dur hd
    have h1 : occDays (.duration a dur) = unroll a (a + dur) := by
      unfold occDays
      rw [if_pos (by simp only [numDays, tsBegin, tsEnd]; omega)]
    have h2 : occDays (.timePoints a (a + dur)) = unroll a (a + dur) := by
      unfold occDays
      rw [if_pos (by simp only [numDays, tsBegin, tsEnd]; omega)]
    refine ⟨h1.trans h2.symm, ?_⟩
    rw [h1]
    exact unroll_decomposition hd
  · intro b e hbe
    unfold occDays
    rw [if_pos]
    simp only [numDays, tsBegin, tsEnd, Option.getD]
    rw [dateOf_mul, dateOf_mul_add e 86399 (by omega) (by omega)]
    omega

/-- Witness for the amended day-slice decomposition: a zero-length
span, a two-day span from 01:00 of day 0 to 00:01 of day 2, and a
two-day allday span with an explicit end. -/
theorem occurrence_days_decomposition_witness :
    (dateOf (tsEnd (.instant 500)) = dateOf (tsBegin (.instant 500)) ∧
      occDays (.instant 500) = [.instant 500]) ∧
    (dateOf (3600 : Int) < dateOf (172860 : Int) ∧
      timePointsDecomposition 3600 172860 (occDays (.timePoints 3600 172860))) ∧
    ((0 : Int) < 2 ∧
      occDays (.allday 0 (some 2)) = (dateRange 0 1).map (fun d => TimeSpan.allday d none)) :=
  ⟨⟨by decide, occurrence_days_decomposition.1 _ (by decide)⟩,
   ⟨by decide, occurrence_days_decomposition.2.1 3600 172860 (by decide)⟩,
   ⟨by decide, occurrence_days_decomposition.2.2.2 0 2 (by decide)⟩⟩

theorem foldl_preserve {α : Type} (P : Cache → Prop) (f : Cache → α → Cache)
    (hf : ∀ c a, P c → P (f c a)) : ∀ (l : List α) (c : Cache), P c → P (l.foldl f c)
  | [], _, h => h
  | a :: l, c, h => foldl_preserve P f hf l (f c a) (hf c a h)

theorem cachePush_isSome {c : Cache} {d x : Int} {line : UidSpan} (h : (c x).isSome) :
    ((cachePush c d line) x).isSome := by
  unfold cachePush
  by_cases hx : x = d
  · simp [hx]
  · simpa [hx] using h

theorem cacheAddOcc_isSome {c : Cache} {occ : UidSpan} {x : Int} (h : (c x).isSome) :
    ((cacheAddOcc c occ) x).isSome :=
  foldl_preserve (fun c2 => (c2 x).isSome) _ (fun _ _ hc => cachePush_isSome hc) _ c h

theorem cacheAdd_isSome {c : Cache} {occs : List UidSpan} {x : Int} (h : (c x).isSome) :
    ((cacheAdd c occs) x).isSome :=
  foldl_preserve (fun c2 => (c2 x).isSome) cacheAddOcc
    (fun _ _ hc => cacheAddOcc_isSome hc) occs c h

theorem addToCache_isSome {cals : List UidSpan} {c : Cache} {d x : Int}
    (hd : (c d).isSome = false) (h : (c x).isSome) :
    ((addToCache cals c d) x).isSome := by
  unfold addToCache
  rw [hd]
  simp only [Bool.false_eq_true, if_false]
  exact cacheAdd_isSome h

theorem populateRange_isSome {cals : List UidSpan} :
    ∀ (ds : List Int) (c : Cache) (x : Int),
      (c x).isSome → ((populateRange cals c ds) x).isSome := by
  intro ds
  induction ds with
  | nil => intro c x h; exact h
  | cons d ds ih =>
    intro c x h
    unfold populateRange
    by_cases hd : (c d).isSome
    · rw [if_pos hd]
      exact ih c x h
    · rw [if_neg hd]
      exact ih _ x (addToCache_isSome (by simpa using hd) h)

theorem occDays_head_date (s : TimeSpan) :
    ∃ sl rest, occDays s = sl :: rest ∧ dateOf (tsBegin sl) = dateOf (tsBegin s) := by
  by_cases h : 1 < numDays s
  · cases s with
    | allday b e =>
      cases e with
      | some ee =>
        have hbe : b < ee := by
          have h2 := h
          simp only [numDays, tsBegin, tsEnd, Option.getD] at h2
          rw [dateOf_mul, dateOf_mul_add ee 86399 (by omega) (by omega)] at h2
          omega
        have hocc : occDays (TimeSpan.allday b (some ee))
            = (dateRange b (ee - 1)).map (fun d => TimeSpan.allday d none) := by
          unfold occDays
          rw [if_pos h]
        refine ⟨.allday b none,
          (dateRange (b + 1) (ee - 1)).map (fun d => .allday d none), ?_, ?_⟩
        · rw [hocc, dateRange_eq_cons (show b ≤ ee - 1 by omega), List.map_cons]
        · simp [tsBegin]
      | none =>
        exfalso
        simp only [numDays, tsBegin, tsEnd, Option.getD] at h
        rw [dateOf_mul, dateOf_mul_add b 86399 (by omega) (by omega)] at h
        omega
    | timePoints a b =>
      have hab : dateOf a < dateOf b := by
        simp only [numDays, tsBegin, tsEnd] at h
        omega
      refine ⟨.timePoints a ((dateOf a + 1) * secPerDay),
        (dateRange (dateOf a + 1) (dateOf b - 1)).map (fun d => TimeSpan.allday d none)
          ++ [.timePoints (dateOf b * secPerDay) b], ?_, rfl⟩
      unfold occDays
      rw [if_pos h]
      exact unroll_eq hab
    | duration a dur =>
      have hab : dateOf a < dateOf (a + dur) := by
        simp only [numDays, tsBegin, tsEnd] at h
        omega
      refine ⟨.timePoints a ((dateOf a + 1) * secPerDay),
        (dateRange (dateOf a + 1) (dateOf (a + dur) - 1)).map (fun d => TimeSpan.allday d none)
          ++ [.timePoints (dateOf (a + dur) * secPerDay) (a + dur)], ?_, rfl⟩
      unfold occDays
      rw [if_pos h]
      exact unroll_eq hab
    | instant a =>
      refine ⟨.instant a, [], ?_, rfl⟩
      unfold occDays
      rw [if_pos h]
  · refine ⟨s, [], ?_, rfl⟩
    unfold occDays
    rw [if_neg h]

theorem filterEvents_start_date {cals : List UidSpan} {d : Int} {occ : UidSpan}
    (h : occ ∈ filterEvents cals (d * secPerDay) ((d + 1) * secPerDay)) :
    dateOf (tsBegin occ.span) = d := by
  have h2 := List.mem_filter.mp h
  simp only [Bool.and_eq_true, decide_eq_true_eq] at h2
  obtain ⟨-, h3, h4⟩ := h2
  simp only [secPerDay] at h3 h4
  simp only [dateOf, secPerDay]
  omega

theorem cacheAddOcc_creates {c : Cache} {occ : UidSpan} {d : Int}
    (h : dateOf (tsBegin occ.span) = d) :
    ((cacheAddOcc c occ) d).isSome := by
  obtain ⟨sl, rest, hocc, hdate⟩ := occDays_head_date occ.span
  unfold cacheAddOcc
  rw [hocc]
  simp only [List.foldl_cons]
  apply foldl_preserve (fun c2 => (c2 d).isSome) _ (fun _ _ hc => cachePush_isSome hc)
  unfold cachePush
  rw [hdate, h]
  simp

theorem addToCache_covers {cals : List UidSpan} {c : Cache} {d : Int}
    (hd : (c d).isSome = false) :
    ((addToCache cals c d) d).isSome ∨
      filterEvents cals (d * secPerDay) ((d + 1) * secPerDay) = [] := by
  cases hocc : filterEvents cals (d * secPerDay) ((d + 1) * secPerDay) with
  | nil => exact Or.inr rfl
  | cons occ occs =>
    left
    unfold addToCache
    rw [hd]
    simp only [Bool.false_eq_true, if_false]
    rw [hocc]
    unfold cacheAdd
    simp only [List.foldl_cons]
    apply foldl_preserve (fun c2 => (c2 d).isSome) cacheAddOcc
      (fun _ _ hc => cacheAddOcc_isSome hc)
    apply cacheAddOcc_creates
    apply @filterEvents_start_date cals d _
    rw [hocc]
    exact List.mem_cons_self _ _

theorem populateRange_covers {cals : List UidSpan} : ∀ (ds : List Int) (c : Cache),
    ∀ d ∈ ds, ((populateRange cals c ds) d).isSome ∨
      filterEvents cals (d * secPerDay) ((d + 1) * secPerDay) = [] := by
  intro ds
  induction ds with
  | nil =>
    intro c d hmem
    cases hmem
  | cons d0 ds ih =>
    intro c d hmem
    unfold populateRange
    by_cases h0 : (c d0).isSome
    · rw [if_pos h0]
      rcases List.mem_cons.mp hmem with rfl | hmem2
      · exact Or.inl (populateRange_isSome ds c d h0)
      · exact ih c d hmem2
    · rw [if_neg h0]
      rcases List.mem_cons.mp hmem with rfl | hmem2
      · rcases @addToCache_covers cals c d (by simpa using h0)
          with hsome | hempty
        · exact Or.inl (populateRange_isSome ds _ d hsome)
        · exact Or.inr hempty
      · exact ih _ d hmem2

theorem populateRange_idem {cals : List UidSpan} : ∀ (ds : List Int) (c : Cache),
    (∀ d ∈ ds, (c d).isSome ∨ filterEvents cals (d * secPerDay) ((d + 1) * secPerDay) = []) →
    populateRange cals c ds = c := by
  intro ds
  induction ds with
  | nil => intro c _; rfl
  | cons d0 ds ih =>
    intro c h
    unfold populateRange
    by_cases h0 : (c d0).isSome
    · rw [if_pos h0]
      exact ih c (fun d hd => h d (List.mem_cons_of_mem _ hd))
    · rw [if_neg h0]
      rcases h d0 (List.mem_cons_self _ _) with hsome | hempty
      · exact absurd hsome h0
      · have hstep : addToCache cals c d0 = c := by
          unfold addToCache
          rw [hempty]
          have hb : (c d0).isSome = false := by simpa using h0
          rw [hb]
          rfl
        rw [hstep]
        exact ih c (fun d hd => h d (List.mem_cons_of_mem _ hd))

theorem cachePush_append {c : Cache} {d k : Int} {line : UidSpan} {lines : List UidSpan}
    (h : c d = some lines) :
    ∃ extra, (cachePush c k line) d = some (lines ++ extra) := by
  unfold cachePush
  by_cases hk : d = k
  · subst hk
    rw [if_pos rfl, h]
    exact ⟨[line], by simp⟩
  · rw [if_neg hk]
    exact ⟨[], by simp [h]⟩

theorem foldl_append_preserve {α : Type} (f : Cache → α → Cache)
    (hf : ∀ (c : Cache) (a : α) (d : Int) (lines : List UidSpan), c d = some lines →
      ∃ extra, (f c a) d = some (lines ++ extra)) :
    ∀ (l : List α) (c : Cache) (d : Int) (lines : List UidSpan), c d = some lines →
      ∃ extra, (l.foldl f c) d = some (lines ++ extra) := by
  intro l
  induction l with
  | nil =>
    intro c d lines h
    exact ⟨[], by simpa using h⟩
  | cons a l ih =>
    intro c d lines h
    obtain ⟨e1, h1⟩ := hf c a d lines h
    obtain ⟨e2, h2⟩ := ih (f c a) d (lines ++ e1) h1
    exact ⟨e1 ++ e2, by rw [List.foldl_cons, h2, List.append_assoc]⟩

theorem cacheAddOcc_append {c : Cache} {occ : UidSpan} {d : Int} {lines : List UidSpan}
    (h : c d = some lines) :
    ∃ extra, (cacheAddOcc c occ) d = some (lines ++ extra) :=
  foldl_append_preserve _ (fun _ _ _ _ hc => cachePush_append hc) _ c d lines h

theorem cacheAdd_append {c : Cache} {occs : List UidSpan} {d : Int} {lines : List UidSpan}
    (h : c d = some lines) :
    ∃ extra, (cacheAdd c occs) d = some (lines ++ extra) :=
  foldl_append_preserve cacheAddOcc (fun _ _ _ _ hc => cacheAddOcc_append hc) occs c d lines h

theorem addToCache_append {cals : List UidSpan} {c : Cache} {dd d : Int}
    {lines : List UidSpan} (hdd : (c dd).isSome = false) (h : c d = some lines) :
    ∃ extra, (addToCache cals c dd) d = some (lines ++ extra) := by
  unfold addToCache
  rw [hdd]
  simp only [Bool.false_eq_true, if_false]
  exact cacheAdd_append h

theorem populateRange_append {cals : List UidSpan} :
    ∀ (ds : List Int) (c : Cache) (d : Int) (lines : List UidSpan),
      c d = some lines → ∃ extra, (populateRange cals c ds) d = some (lines ++ extra) := by
  intro ds
  induction ds with
  | nil =>
    intro c d lines h
    exact ⟨[], by simpa using h⟩
  | cons d0 ds ih =>
    intro c d lines h
    unfold populateRange
    by_cases h0 : (c d0).isSome
    · rw [if_pos h0]
      exact ih c d lines h
    · rw [if_neg h0]
      obtain ⟨e1, h1⟩ := @addToCache_append cals c d0 d lines (by simpa using h0) h
      obtain ⟨e2, h2⟩ := ih _ d (lines ++ e1) h1
      exact ⟨e1 ++ e2, by rw [h2, List.append_assoc]⟩

/-- C8 counterexample: querying a one-day range over an empty calendar
set succeeds, yet afterwards the queried date is still absent from the
occurrence cache — `add_to_cache` only creates buckets through day
slices, so a date on which no occurrence starts never becomes
present — contradicting the claim that after the first call every
calendar date in the range is present in the cache (and that the second
call therefore performs no new population). -/
theorem eventsIn_empty_date_never_cached :
    (fetchMaybeCached [] (fun _ => none) (.included 0) (.included 0)).map
        (fun r => r.1 0) = some none ∧
    (0 : Int) ∈ dateRange (dateOf 0) (dateOf 0) :=
  ⟨rfl, by decide⟩

/-- C8 (amended): two identical bounded queries with no intervening
modification yield the identical cache and identical results — the
second call changes no cache entry; buckets already present are reused,
never rebuilt (their lines are only ever appended to); and every
queried date is, after the first call, either present in the cache or
has no occurrence starting on it (such occurrence-free dates never
become present and are re-scanned by every later query). -/
theorem agenda_cache_idempotent (cals : List UidSpan) (c : Cache) (s e : Int) :
    ∃ c1 r1,
      fetchMaybeCached cals c (.included s) (.included e) = some (c1, r1) ∧
      fetchMaybeCached cals c1 (.included s) (.included e) = some (c1, r1) ∧
      (∀ d lines, c d = some lines → ∃ extra, c1 d = some (lines ++ extra)) ∧
      (∀ d ∈ dateRange (dateOf s) (dateOf e),
        (c1 d).isSome ∨ filterEvents cals (d * secPerDay) ((d + 1) * secPerDay) = []) := by
  have hcov : ∀ d ∈ dateRange (dateOf s) (dateOf e),
      ((populateRange cals c (dateRange (dateOf s) (dateOf e))) d).isSome ∨
        filterEvents cals (d * secPerDay) ((d + 1) * secPerDay) = [] :=
    populateRange_covers _ c
  have hidem : populateRange cals (populateRange cals c (dateRange (dateOf s) (dateOf e)))
      (dateRange (dateOf s) (dateOf e))
      = populateRange cals c (dateRange (dateOf s) (dateOf e)) :=
    populateRange_idem _ _ hcov
  refine ⟨populateRange cals c (dateRange (dateOf s) (dateOf e)),
    fetchRange (populateRange cals c (dateRange (dateOf s) (dateOf e))) (dateOf s) (dateOf e),
    rfl, ?_, ?_, hcov⟩
  · show some (populateRange cals (populateRange cals c (dateRange (dateOf s) (dateOf e)))
        (dateRange (dateOf s) (dateOf e)),
      fetchRange (populateRange cals (populateRange cals c (dateRange (dateOf s) (dateOf e)))
        (dateRange (dateOf s) (dateOf e))) (dateOf s) (dateOf e)) = _
    rw [hidem]
  · intro d lines h
    exact populateRange_append _ c d lines h

/-- Witness for the amended cache idempotence at a concrete one-event
state. -/
theorem agenda_cache_idempotent_witness :
    ∃ c1 r1,
      fetchMaybeCached [⟨"u", .instant 50⟩] (fun _ => none) (.included 0) (.included 0)
        = some (c1, r1) ∧
      fetchMaybeCached [⟨"u", .instant 50⟩] c1 (.included 0) (.included 0)
        = some (c1, r1) ∧
      (∀ d lines, (fun _ => (none : Option (List UidSpan))) d = some lines →
        ∃ extra, c1 d = some (lines ++ extra)) ∧
      (∀ d ∈ dateRange (dateOf 0) (dateOf 0),
        (c1 d).isSome ∨
          filterEvents [⟨"u", .instant 50⟩] (d * secPerDay) ((d + 1) * secPerDay) = []) :=
  agenda_cache_idempotent [⟨"u", .instant 50⟩] (fun _ => none) 0 0
